import Mathlib

/-!
Verification of the Orienteering Problem environment of rl4co
(file rl4co/envs/op.py), shallowly embedded in Lean.

Conventions of the embedding:
- floating point numbers are modelled by the real numbers, and the torch
  2-norm of a difference of planar points is the exact Euclidean distance;
- batched tensors are modelled one batch element at a time: a tensor of
  shape (batch, n) becomes a List over the node axis;
- in-place tensor updates become functional updates of an OPState record;
- a python KeyError or AssertionError becomes an Except.error value.
-/

namespace RL4CO

/-- Euclidean length of the difference of two planar points, i.e. the torch
p=2 norm over the last axis applied to a difference of coordinate pairs. -/
noncomputable def euclid (p q : ℝ × ℝ) : ℝ :=
  Real.sqrt ((p.1 - q.1) ^ 2 + (p.2 - q.2) ^ 2)

/-- Calibration table MAX_LENGTHS of op.py line 15: node counts 20, 50, 100
map to travel-length capacities 2.0, 3.0, 4.0; every other count is absent,
and a python dict lookup on an absent key raises KeyError. -/
def MAX_LENGTHS (n : ℕ) : Option ℚ :=
  if n = 20 then some 2 else if n = 50 then some 3 else if n = 100 then some 4 else none

/-- The configuration attributes stored by OPEnv.__init__. -/
structure OPEnv where
  num_loc : ℕ
  min_loc : ℚ
  max_loc : ℚ
  min_prize : ℚ
  max_prize : ℚ
  length_capacity : ℚ

/-- OPEnv.__init__: stores the scalar configuration and looks up
MAX_LENGTHS with the configured num_loc; an absent key is a KeyError.
The default arguments are those of the python signature. -/
def OPEnv.init (num_loc : ℕ := 10) (min_loc : ℚ := 0) (max_loc : ℚ := 1)
    (min_prize : ℚ := 1 / 100) (max_prize : ℚ := 101 / 100) : Except String OPEnv :=
  match MAX_LENGTHS num_loc with
  | some c => Except.ok ⟨num_loc, min_loc, max_loc, min_prize, max_prize, c⟩
  | none => Except.error "KeyError: num_loc"

/-- One batch element of the TensorDict state handled by _step and _reset.
Index 0 of locs, prize, length_to_depot and action_mask is the depot. -/
structure OPState where
  locs : List (ℝ × ℝ)
  length_capacity : ℝ
  length_to_depot : List ℝ
  current_node : ℕ
  prize : List ℝ
  prize_collect : ℝ
  action_mask : List Bool
  done : Bool

/-- OPEnv._step for one batch element, following op.py lines 64-125:
collect the prize at the chosen action, zero that prize out, subtract the
travelled edge length from the capacity, rebuild the action mask from the
updated prize and capacity, detect termination (no node with a true mask
entry left), and force the depot entry of the mask on termination. -/
noncomputable def OPEnv.step (td : OPState) (action : ℕ) : OPState :=
  let current_node := action
  let prize_collect := td.prize_collect + td.prize.getD action 0
  let prize := td.prize.set action 0
  let length_capacity := td.length_capacity -
    euclid (td.locs.getD action (0, 0)) (td.locs.getD td.current_node (0, 0))
  let mask1 := prize.map fun p => decide (0 < p)
  let length_to_next_node := td.locs.map fun q => euclid q (td.locs.getD action (0, 0))
  let length_and_return := List.zipWith (· + ·) length_to_next_node td.length_to_depot
  let mask2 := List.zipWith (fun m l => m && decide (l ≤ length_capacity)) mask1 length_and_return
  let done := decide (mask2.count true = 0)
  let action_mask :=
    match mask2 with
    | [] => []
    | m :: rest => (m || done) :: rest
  { locs := td.locs
    length_capacity := length_capacity
    length_to_depot := td.length_to_depot
    current_node := current_node
    prize := prize
    prize_collect := prize_collect
    action_mask := action_mask
    done := done }

/-- The per-instance fields produced by generate_data and consumed by
_reset: a depot point, the non-depot locations and the non-depot prizes. -/
structure OPInstance where
  depot : ℝ × ℝ
  locs : List (ℝ × ℝ)
  prize : List ℝ

/-- OPEnv._reset for one batch element, following op.py lines 127-177:
prepend the depot to the locations and a zero to the prize vector, start at
the depot with the configured capacity, precompute every node's distance to
the depot, and build the initial action mask as prize above 1e-5 and
round trip through the node within the capacity. -/
noncomputable def OPEnv.reset (env : OPEnv) (td : OPInstance) : OPState :=
  let observation := td.depot :: td.locs
  let prize := (0 : ℝ) :: td.prize
  let current_node := 0
  let length_capacity : ℝ := (env.length_capacity : ℝ)
  let length_to_depot := observation.map fun q => euclid q td.depot
  let mask1 := prize.map fun p => decide ((1e-5 : ℝ) < p)
  let current_node_loccation := observation.getD current_node (0, 0)
  let length_to_next_node := observation.map fun q => euclid q current_node_loccation
  let length_and_return := List.zipWith (· + ·) length_to_next_node length_to_depot
  let action_mask :=
    List.zipWith (fun m l => m && decide (l ≤ length_capacity)) mask1 length_and_return
  { locs := observation
    length_capacity := length_capacity
    length_to_depot := length_to_depot
    current_node := current_node
    prize := prize
    prize_collect := 0
    action_mask := action_mask
    done := false }

/-- The tour length reconstructed by get_reward (op.py lines 242-251):
gather the location of every action, sum the consecutive legs, and add the
depot-to-first and last-to-depot legs. -/
noncomputable def tourLength (locs : List (ℝ × ℝ)) (actions : List ℕ) : ℝ :=
  let d := actions.map fun a => locs.getD a (0, 0)
  (List.zipWith euclid (d.drop 1) d).sum
    + euclid (d.headD (0, 0)) (locs.getD 0 (0, 0))
    + euclid (d.getLastD (0, 0)) (locs.getD 0 (0, 0))

/-- OPEnv.get_reward for one batch element (op.py lines 230-258): sort the
action sequence, assert that every adjacent sorted pair is either a zero or
strictly increasing (no duplicate non-depot visit), assert that the
reconstructed tour length is within the configured capacity plus 1e-5, and
on success return the collected prize. -/
noncomputable def OPEnv.get_reward (length_capacity : ℝ) (locs : List (ℝ × ℝ))
    (prize_collect : ℝ) (actions : List ℕ) : Except String ℝ :=
  let sorted_actions := List.insertionSort (· ≤ ·) actions
  if List.Chain' (fun a b => b = 0 ∨ a < b) sorted_actions then
    if tourLength locs actions ≤ length_capacity + 1e-5 then Except.ok prize_collect
    else Except.error "Max length exceeded"
  else Except.error "Duplicates"

/-- Truncation toward zero, the semantics of tensor.int() on a float. -/
noncomputable def truncInt (x : ℝ) : ℤ := if 0 ≤ x then Int.floor x else -Int.floor (-x)

/-- The torch max over the node axis of the distances to the depot,
modelled by a fold with neutral element 0, which agrees with the tensor
max because distances are non-negative. -/
noncomputable def maxDistToDepot (depot : ℝ × ℝ) (locs : List (ℝ × ℝ)) : ℝ :=
  (locs.map fun q => euclid depot q).foldr max 0

/-- The prize vector built by generate_data (op.py lines 286-290): the
distance of every non-depot node from the depot, normalised by the maximal
such distance, scaled by 99, truncated to an integer, shifted by one and
divided by 100. -/
noncomputable def generatePrize (depot : ℝ × ℝ) (locs : List (ℝ × ℝ)) : List ℝ :=
  let prize_ := locs.map fun q => euclid depot q
  let dmax := maxDistToDepot depot locs
  prize_.map fun d => ((1 + truncInt (d / dmax * 99) : ℤ) : ℝ) / 100

/-- An episode fragment: fold _step over a list of chosen actions. -/
noncomputable def runSteps (td : OPState) (actions : List ℕ) : OPState :=
  actions.foldl OPEnv.step td

/-- The action mask computed by _step before the depot entry is forced on
termination (op.py lines 86-96), spelled out for reasoning; it is
definitionally the mask2 value inside OPEnv.step. -/
noncomputable def stepMaskPre (td : OPState) (action : ℕ) : List Bool :=
  let length_capacity := td.length_capacity -
    euclid (td.locs.getD action (0, 0)) (td.locs.getD td.current_node (0, 0))
  List.zipWith (fun m l => m && decide (l ≤ length_capacity))
    ((td.prize.set action 0).map fun p => decide (0 < p))
    (List.zipWith (· + ·) (td.locs.map fun q => euclid q (td.locs.getD action (0, 0)))
      td.length_to_depot)

/-- A concrete state with both nodes at the origin and no prize left:
stepping from it terminates the episode and forces the depot mask entry. -/
noncomputable def sExhausted : OPState :=
  { locs := [(0, 0), (0, 0)]
    length_capacity := 1
    length_to_depot := [0, 0]
    current_node := 0
    prize := [0, 0]
    prize_collect := 0
    action_mask := [false, false]
    done := false }

/-- A concrete state with both nodes at the origin and one positive prize
left: stepping from it keeps the non-depot node feasible. -/
noncomputable def sOneLeft : OPState :=
  { locs := [(0, 0), (0, 0)]
    length_capacity := 10
    length_to_depot := [0, 0]
    current_node := 0
    prize := [0, 5]
    prize_collect := 0
    action_mask := [false, true]
    done := false }

/-- The environment configured for 20 nodes, hence capacity 2. -/
def env20 : OPEnv := ⟨20, 0, 1, 1 / 100, 101 / 100, 2⟩

/-- A concrete instance whose single node sits at distance 3 from the
depot, so its round trip of length 6 exceeds the capacity 2. -/
noncomputable def instFar : OPInstance := ⟨(0, 0), [(3, 0)], [1]⟩

/-! Helper lemmas shared by several claims. -/

lemma getD_set_same (l : List ℝ) (a : ℕ) : (l.set a 0).getD a 0 = 0 := by
  rcases lt_or_le a l.length with h | h
  · rw [List.getD_eq_getElem _ _ (show a < (l.set a 0).length by simpa using h)]
    exact List.getElem_set_self _
  · rw [List.getD_eq_default _ _ (show (l.set a 0).length ≤ a by simpa using h)]

lemma getD_set_other (l : List ℝ) (a v : ℕ) (h : v ≠ a) :
    (l.set a 0).getD v 0 = l.getD v 0 := by
  simp [List.getD_eq_getElem?_getD, List.getElem?_set_ne (Ne.symm h)]

lemma step_prize_stays_zero (td : OPState) (b v : ℕ) (h : td.prize.getD v 0 = 0) :
    (OPEnv.step td b).prize.getD v 0 = 0 := by
  show (td.prize.set b 0).getD v 0 = 0
  rcases eq_or_ne v b with rfl | hne
  · exact getD_set_same _ _
  · rw [getD_set_other _ _ _ hne]
    exact h

lemma runSteps_prize_stays_zero (td : OPState) (acts : List ℕ) (v : ℕ)
    (h : td.prize.getD v 0 = 0) : (runSteps td acts).prize.getD v 0 = 0 := by
  induction acts generalizing td with
  | nil => exact h
  | cons b rest ih => exact ih (OPEnv.step td b) (step_prize_stays_zero td b v h)

lemma step_action_mask_eq (td : OPState) (action : ℕ) :
    (OPEnv.step td action).action_mask =
      match stepMaskPre td action with
      | [] => []
      | m :: rest => (m || decide ((stepMaskPre td action).count true = 0)) :: rest := rfl

lemma step_action_mask_getD_tail (td : OPState) (action v : ℕ) (hv : v ≠ 0) :
    (OPEnv.step td action).action_mask.getD v false = (stepMaskPre td action).getD v false := by
  rw [step_action_mask_eq]
  obtain ⟨k, rfl⟩ := Nat.exists_eq_succ_of_ne_zero hv
  cases hm : stepMaskPre td action with
  | nil => simp
  | cons m rest => simp [List.getD_cons_succ]

lemma stepMaskPre_getD_true {td : OPState} {action v : ℕ}
    (h : (stepMaskPre td action).getD v false = true) :
    0 < (td.prize.set action 0).getD v 0 ∧
    euclid (td.locs.getD v (0, 0)) (td.locs.getD action (0, 0)) +
        td.length_to_depot.getD v 0 ≤
      td.length_capacity -
        euclid (td.locs.getD action (0, 0)) (td.locs.getD td.current_node (0, 0)) := by
  by_cases hv : v < (stepMaskPre td action).length
  · have hlen := hv
    simp only [stepMaskPre, List.length_zipWith, List.length_map, List.length_set,
      lt_min_iff] at hlen
    rw [List.getD_eq_getElem _ _ hv] at h
    simp only [stepMaskPre, List.getElem_zipWith, List.getElem_map, Bool.and_eq_true,
      decide_eq_true_eq] at h
    rw [List.getD_eq_getElem _ _ (by simpa using hlen.1),
      List.getD_eq_getElem _ _ hlen.2.1, List.getD_eq_getElem _ _ hlen.2.2]
    exact h
  · rw [List.getD_eq_default _ _ (le_of_not_lt hv)] at h
    exact absurd h (by simp)

lemma count_true_zero_of_all_false (r : List Bool) (h : ∀ i, r.getD i false = false) :
    r.count true = 0 := by
  induction r with
  | nil => rfl
  | cons x t ih =>
    have hx : x = false := h 0
    subst hx
    simpa [List.count_cons] using ih fun i => h (i + 1)

/-- C2: _step adds the prize at the chosen action to the collected-prize
accumulator, zeroes the prize at the action, subtracts the Euclidean edge
length between the previous current node and the action from the remaining
capacity, and sets the current node to the action. -/
theorem step_effects (td : OPState) (action : ℕ) :
    (OPEnv.step td action).prize_collect = td.prize_collect + td.prize.getD action 0 ∧
    (OPEnv.step td action).prize = td.prize.set action 0 ∧
    (OPEnv.step td action).prize.getD action 0 = 0 ∧
    (OPEnv.step td action).length_capacity = td.length_capacity -
      euclid (td.locs.getD action (0, 0)) (td.locs.getD td.current_node (0, 0)) ∧
    (OPEnv.step td action).current_node = action :=
  ⟨rfl, rfl, getD_set_same td.prize action, rfl, rfl⟩

/-- C4: after stepping on a node its prize is zero, it stays zero along any
continuation of the episode, and a later step choosing the same node again
leaves the collected prize unchanged, so a prize is collected at most once. -/
theorem step_exclusivity (td : OPState) (a : ℕ) (laterActions : List ℕ) :
    (OPEnv.step td a).prize.getD a 0 = 0 ∧
    (runSteps (OPEnv.step td a) laterActions).prize.getD a 0 = 0 ∧
    (OPEnv.step (runSteps (OPEnv.step td a) laterActions) a).prize_collect =
      (runSteps (OPEnv.step td a) laterActions).prize_collect := by
  have h0 : (OPEnv.step td a).prize.getD a 0 = 0 := getD_set_same td.prize a
  have h1 : (runSteps (OPEnv.step td a) laterActions).prize.getD a 0 = 0 :=
    runSteps_prize_stays_zero _ laterActions a h0
  refine ⟨h0, h1, ?_⟩
  show (runSteps (OPEnv.step td a) laterActions).prize_collect +
      (runSteps (OPEnv.step td a) laterActions).prize.getD a 0 = _
  rw [h1, add_zero]

/-- C9: _step returns the locations and the per-node distances to the depot
unchanged, and they stay fixed along a whole episode. -/
theorem step_frame (td : OPState) (action : ℕ) (actions : List ℕ) :
    (OPEnv.step td action).locs = td.locs ∧
    (OPEnv.step td action).length_to_depot = td.length_to_depot ∧
    (runSteps td actions).locs = td.locs ∧
    (runSteps td actions).length_to_depot = td.length_to_depot := by
  refine ⟨rfl, rfl, ?_⟩
  induction actions generalizing td with
  | nil => exact ⟨rfl, rfl⟩
  | cons b rest ih => exact ih (OPEnv.step td b)

/-- C8: construction fails with a KeyError exactly when the configured node
count is outside the calibration table with entries 20, 50 and 100, and for
a supported node count the stored travel-length capacity is exactly the
table value. -/
theorem init_capacity_table (N : ℕ) :
    (MAX_LENGTHS 20 = some 2 ∧ MAX_LENGTHS 50 = some 3 ∧ MAX_LENGTHS 100 = some 4) ∧
    (OPEnv.init N 0 1 (1 / 100) (101 / 100) = Except.error "KeyError: num_loc" ↔
      ¬(N = 20 ∨ N = 50 ∨ N = 100)) ∧
    (∀ c, MAX_LENGTHS N = some c →
      OPEnv.init N 0 1 (1 / 100) (101 / 100) =
        Except.ok ⟨N, 0, 1, 1 / 100, 101 / 100, c⟩) := by
  refine ⟨⟨rfl, rfl, rfl⟩, ?_, ?_⟩ <;>
    · simp only [OPEnv.init, MAX_LENGTHS]
      split_ifs <;> simp_all

/-- C1 counterexample: stepping from a state with no prize left terminates
the episode and forces the depot entry of the mask to true although the
depot prize is 0, so a node with zero prize is flagged legal. -/
theorem step_mask_sound_cex :
    (OPEnv.step sExhausted 0).action_mask.getD 0 false = true ∧
    (OPEnv.step sExhausted 0).prize.getD 0 0 = 0 := by
  constructor <;> norm_num [OPEnv.step, sExhausted, euclid, List.getD]

/-- C1 amended: at every state produced by _step, every non-depot node
flagged legal has positive prize and a round trip through it within the
remaining capacity; the depot entry alone escapes this rule, being forced
to true on termination. -/
theorem step_mask_sound (td : OPState) (action v : ℕ) (hv : v ≠ 0)
    (h : (OPEnv.step td action).action_mask.getD v false = true) :
    0 < (OPEnv.step td action).prize.getD v 0 ∧
    euclid ((OPEnv.step td action).locs.getD v (0, 0))
        ((OPEnv.step td action).locs.getD (OPEnv.step td action).current_node (0, 0)) +
      (OPEnv.step td action).length_to_depot.getD v 0 ≤
      (OPEnv.step td action).length_capacity := by
  rw [step_action_mask_getD_tail td action v hv] at h
  exact stepMaskPre_getD_true h

theorem step_mask_sound_witness :
    ((1 : ℕ) ≠ 0 ∧ (OPEnv.step sOneLeft 0).action_mask.getD 1 false = true) ∧
    (0 < (OPEnv.step sOneLeft 0).prize.getD 1 0 ∧
      euclid ((OPEnv.step sOneLeft 0).locs.getD 1 (0, 0))
          ((OPEnv.step sOneLeft 0).locs.getD (OPEnv.step sOneLeft 0).current_node (0, 0)) +
        (OPEnv.step sOneLeft 0).length_to_depot.getD 1 0 ≤
        (OPEnv.step sOneLeft 0).length_capacity) := by
  have h1 : (OPEnv.step sOneLeft 0).action_mask.getD 1 false = true := by
    norm_num [OPEnv.step, sOneLeft, euclid, List.getD]
  exact ⟨⟨one_ne_zero, h1⟩, step_mask_sound sOneLeft 0 1 one_ne_zero h1⟩

/-- C3 counterexample: _reset never forces the depot entry of the mask (the
depot prize 0 fails the prize test), so when every node of the instance is
out of round-trip range the reset mask has no legal entry at all. -/
theorem reset_depot_forced_cex :
    ¬ ((∀ v, v ≠ 0 → (OPEnv.reset env20 instFar).action_mask.getD v false = false) →
      (OPEnv.reset env20 instFar).action_mask.getD 0 false = true) := by
  have h3 : Real.sqrt 9 = 3 := by
    rw [show (9 : ℝ) = 3 ^ 2 by norm_num]
    exact Real.sqrt_sq (by norm_num)
  have hmask : (OPEnv.reset env20 instFar).action_mask = [false, false] := by
    norm_num [OPEnv.reset, env20, instFar, euclid, h3]
  intro hclaim
  have hdepot := hclaim (by
    intro v hv
    obtain ⟨k, rfl⟩ := Nat.exists_eq_succ_of_ne_zero hv
    rw [hmask]
    match k with
    | 0 => rfl
    | k + 1 => rfl)
  rw [hmask] at hdepot
  exact absurd hdepot (by simp [List.getD])

/-- C3 amended: at every state produced by _step, whenever the action mask
has no legal non-depot entry, the depot entry is true; at reset states the
code performs no such forcing. -/
theorem step_depot_forced (td : OPState) (action : ℕ)
    (hne : (OPEnv.step td action).action_mask ≠ [])
    (hall : ∀ v, v ≠ 0 → (OPEnv.step td action).action_mask.getD v false = false) :
    (OPEnv.step td action).action_mask.getD 0 false = true := by
  have hmask := step_action_mask_eq td action
  cases hm : stepMaskPre td action with
  | nil =>
    rw [hm] at hmask
    exact absurd hmask hne
  | cons m rest =>
    rw [hm] at hmask
    have hmask' : (OPEnv.step td action).action_mask =
        (m || decide (List.count true (m :: rest) = 0)) :: rest := hmask
    have hall' : ∀ i, rest.getD i false = false := by
      intro i
      have := hall (i + 1) (Nat.succ_ne_zero i)
      rw [hmask'] at this
      simpa [List.getD_cons_succ] using this
    have hcount : rest.count true = 0 := count_true_zero_of_all_false rest hall'
    rw [hmask', List.getD_cons_zero]
    cases m with
    | true => rfl
    | false => simp [List.count_cons, hcount]

theorem step_depot_forced_witness :
    ((OPEnv.step sExhausted 0).action_mask ≠ [] ∧
      (∀ v, v ≠ 0 → (OPEnv.step sExhausted 0).action_mask.getD v false = false)) ∧
    (OPEnv.step sExhausted 0).action_mask.getD 0 false = true := by
  have hmask : (OPEnv.step sExhausted 0).action_mask = [true, false] := by
    norm_num [OPEnv.step, sExhausted, euclid, List.getD]
  have hne : (OPEnv.step sExhausted 0).action_mask ≠ [] := by rw [hmask]; simp
  have hall : ∀ v, v ≠ 0 → (OPEnv.step sExhausted 0).action_mask.getD v false = false := by
    intro v hv
    obtain ⟨k, rfl⟩ := Nat.exists_eq_succ_of_ne_zero hv
    rw [hmask]
    match k with
    | 0 => rfl
    | k + 1 => rfl
  exact ⟨⟨hne, hall⟩, step_depot_forced sExhausted 0 hne hall⟩

theorem init_capacity_table_witness :
    MAX_LENGTHS 20 = some 2 ∧
    OPEnv.init 20 0 1 (1 / 100) (101 / 100) =
      Except.ok ⟨20, 0, 1, 1 / 100, 101 / 100, 2⟩ :=
  ⟨rfl, (init_capacity_table 20).2.2 2 rfl⟩

lemma zip_mask_eq (g : ℝ → Bool) (f : ℝ × ℝ → ℝ) (cap : ℝ) :
    ∀ (P : List ℝ) (O : List (ℝ × ℝ)),
      List.zipWith (fun m l => m && decide (l ≤ cap)) (P.map g)
        (List.zipWith (· + ·) (O.map f) (O.map f)) =
      List.zipWith (fun p q => g p && decide (f q + f q ≤ cap)) P O := by
  intro P
  induction P with
  | nil => intro O; simp
  | cons p P ih =>
    intro O
    cases O with
    | nil => simp
    | cons q O =>
      simp only [List.map_cons, List.zipWith_cons_cons]
      rw [ih O]

/-- C6: the state produced by _reset starts at the depot, carries the
capacity looked up in the calibration table for the configured node count,
precomputes every node's distance to the depot, prepends a zero prize for
the depot, collects no prize yet, and masks exactly the nodes with prize
above 1e-5 whose round trip through the node fits the capacity. -/
theorem reset_initial_state (N : ℕ) (env : OPEnv) (inst : OPInstance)
    (h : OPEnv.init N 0 1 (1 / 100) (101 / 100) = Except.ok env) :
    (OPEnv.reset env inst).current_node = 0 ∧
    MAX_LENGTHS N = some env.length_capacity ∧
    (OPEnv.reset env inst).length_capacity = (env.length_capacity : ℝ) ∧
    (OPEnv.reset env inst).length_to_depot =
      (inst.depot :: inst.locs).map (fun q => euclid q inst.depot) ∧
    (OPEnv.reset env inst).prize = 0 :: inst.prize ∧
    (OPEnv.reset env inst).prize_collect = 0 ∧
    (OPEnv.reset env inst).action_mask =
      List.zipWith
        (fun p q => decide ((1e-5 : ℝ) < p) &&
          decide (euclid q inst.depot + euclid q inst.depot ≤ (env.length_capacity : ℝ)))
        (0 :: inst.prize) (inst.depot :: inst.locs) := by
  simp only [OPEnv.init] at h
  cases hM : MAX_LENGTHS N with
  | none =>
    rw [hM] at h
    exact absurd h (by simp)
  | some c =>
    rw [hM] at h
    obtain rfl : OPEnv.mk N 0 1 (1 / 100) (101 / 100) c = env := by simpa using h
    refine ⟨rfl, rfl, rfl, rfl, rfl, rfl, ?_⟩
    exact zip_mask_eq (fun p => decide ((1e-5 : ℝ) < p)) (fun q => euclid q inst.depot)
      ((c : ℝ)) (0 :: inst.prize) (inst.depot :: inst.locs)

theorem reset_initial_state_witness :
    OPEnv.init 20 0 1 (1 / 100) (101 / 100) = Except.ok env20 ∧
    ((OPEnv.reset env20 instFar).current_node = 0 ∧
      MAX_LENGTHS 20 = some env20.length_capacity ∧
      (OPEnv.reset env20 instFar).length_capacity = (env20.length_capacity : ℝ) ∧
      (OPEnv.reset env20 instFar).length_to_depot =
        (instFar.depot :: instFar.locs).map (fun q => euclid q instFar.depot) ∧
      (OPEnv.reset env20 instFar).prize = 0 :: instFar.prize ∧
      (OPEnv.reset env20 instFar).prize_collect = 0 ∧
      (OPEnv.reset env20 instFar).action_mask =
        List.zipWith
          (fun p q => decide ((1e-5 : ℝ) < p) &&
            decide (euclid q instFar.depot + euclid q instFar.depot ≤
              (env20.length_capacity : ℝ)))
          (0 :: instFar.prize) (instFar.depot :: instFar.locs)) :=
  ⟨rfl, reset_initial_state 20 env20 instFar rfl⟩

/-- C10: with the default arguments of the python signature, in particular
the default node count 10, construction hits a missing key in MAX_LENGTHS
and fails. -/
theorem init_default_fails :
    (OPEnv.init : Except String OPEnv) = Except.error "KeyError: num_loc" ∧
    MAX_LENGTHS 10 = none :=
  ⟨rfl, rfl⟩

lemma le_foldr_max (l : List ℝ) (x : ℝ) (hx : x ∈ l) : x ≤ l.foldr max 0 := by
  induction l with
  | nil => cases hx
  | cons a t ih =>
    rcases List.mem_cons.mp hx with rfl | h
    · exact le_max_left _ _
    · exact (ih h).trans (le_max_right _ _)

lemma euclid_nonneg (p q : ℝ × ℝ) : 0 ≤ euclid p q := Real.sqrt_nonneg _

lemma dist_le_maxDistToDepot (depot : ℝ × ℝ) (locs : List (ℝ × ℝ)) (i : ℕ)
    (hi : i < locs.length) :
    euclid depot (locs.getD i (0, 0)) ≤ maxDistToDepot depot locs := by
  refine le_foldr_max _ _ ?_
  rw [List.getD_eq_getElem _ _ hi]
  exact List.mem_map_of_mem _ (List.getElem_mem hi)

lemma generatePrize_getD (depot : ℝ × ℝ) (locs : List (ℝ × ℝ)) (k : ℕ)
    (hk : k < locs.length) (hd : 0 < maxDistToDepot depot locs) :
    (generatePrize depot locs).getD k 0 =
      ((1 + Int.floor (euclid depot (locs.getD k (0, 0)) / maxDistToDepot depot locs * 99) :
        ℤ) : ℝ) / 100 := by
  have hk' : k < (generatePrize depot locs).length := by
    simpa [generatePrize] using hk
  rw [List.getD_eq_getElem _ _ hk', List.getD_eq_getElem _ _ hk]
  have hnn : 0 ≤ euclid depot (locs[k]) / maxDistToDepot depot locs * 99 :=
    mul_nonneg (div_nonneg (euclid_nonneg _ _) hd.le) (by norm_num)
  have htr : truncInt (euclid depot (locs[k]) / maxDistToDepot depot locs * 99) =
      Int.floor (euclid depot (locs[k]) / maxDistToDepot depot locs * 99) := by
    unfold truncInt
    exact if_pos hnn
  simp only [generatePrize, List.getElem_map, htr]

/-- C7: every generated non-depot prize is (1 + floor of 99 times the
node's depot distance over the instance's maximal depot distance) over 100,
lies in the 100-tier set of multiples of 1/100 between 0.01 and 1.00, and
is non-decreasing in the distance from the depot. -/
theorem generate_prize_tiers (depot : ℝ × ℝ) (locs : List (ℝ × ℝ)) (i j : ℕ)
    (hi : i < locs.length) (hj : j < locs.length)
    (hd : 0 < maxDistToDepot depot locs) :
    (generatePrize depot locs).getD i 0 =
      ((1 + Int.floor (euclid depot (locs.getD i (0, 0)) / maxDistToDepot depot locs * 99) :
        ℤ) : ℝ) / 100 ∧
    (∃ k : ℕ, 1 ≤ k ∧ k ≤ 100 ∧ (generatePrize depot locs).getD i 0 = (k : ℝ) / 100) ∧
    (euclid depot (locs.getD i (0, 0)) ≤ euclid depot (locs.getD j (0, 0)) →
      (generatePrize depot locs).getD i 0 ≤ (generatePrize depot locs).getD j 0) := by
  have hkey := generatePrize_getD depot locs i hi hd
  have hkeyj := generatePrize_getD depot locs j hj hd
  set D := maxDistToDepot depot locs with hD
  have hfloor_bounds : ∀ m : ℕ, m < locs.length →
      0 ≤ Int.floor (euclid depot (locs.getD m (0, 0)) / D * 99) ∧
      Int.floor (euclid depot (locs.getD m (0, 0)) / D * 99) ≤ 99 := by
    intro m hm
    constructor
    · exact Int.floor_nonneg.mpr
        (mul_nonneg (div_nonneg (euclid_nonneg _ _) hd.le) (by norm_num))
    · have h1 : euclid depot (locs.getD m (0, 0)) / D ≤ 1 :=
        (div_le_one hd).mpr (dist_le_maxDistToDepot depot locs m hm)
      have h99 : euclid depot (locs.getD m (0, 0)) / D * 99 ≤ 99 := by
        nlinarith
      calc Int.floor (euclid depot (locs.getD m (0, 0)) / D * 99) ≤ Int.floor (99 : ℝ) :=
            Int.floor_le_floor h99
        _ = 99 := by norm_num
  refine ⟨hkey, ?_, ?_⟩
  · obtain ⟨h0, h99⟩ := hfloor_bounds i hi
    refine ⟨(1 + Int.floor (euclid depot (locs.getD i (0, 0)) / D * 99)).toNat, ?_, ?_, ?_⟩
    · omega
    · omega
    · rw [hkey]
      congr 1
      rw [show ((1 + Int.floor (euclid depot (locs.getD i (0, 0)) / D * 99)).toNat : ℝ) =
          (((1 + Int.floor (euclid depot (locs.getD i (0, 0)) / D * 99)).toNat : ℤ) : ℝ) by
            push_cast; ring]
      rw [Int.toNat_of_nonneg (by omega)]
  · intro hij
    rw [hkey, hkeyj]
    have hx : euclid depot (locs.getD i (0, 0)) / D * 99 ≤
        euclid depot (locs.getD j (0, 0)) / D * 99 := by
      gcongr
    have hfl : Int.floor (euclid depot (locs.getD i (0, 0)) / D * 99) ≤
        Int.floor (euclid depot (locs.getD j (0, 0)) / D * 99) := Int.floor_le_floor hx
    have : ((1 + Int.floor (euclid depot (locs.getD i (0, 0)) / D * 99) : ℤ) : ℝ) ≤
        ((1 + Int.floor (euclid depot (locs.getD j (0, 0)) / D * 99) : ℤ) : ℝ) := by
      exact_mod_cast by omega
    linarith

theorem generate_prize_tiers_witness :
    ((0 : ℕ) < ([((1 : ℝ), (0 : ℝ))] : List (ℝ × ℝ)).length ∧
      0 < maxDistToDepot (0, 0) [(1, 0)]) ∧
    ((generatePrize (0, 0) [(1, 0)]).getD 0 0 =
      ((1 + Int.floor (euclid (0, 0) (([((1 : ℝ), (0 : ℝ))] : List (ℝ × ℝ)).getD 0 (0, 0)) /
          maxDistToDepot (0, 0) [(1, 0)] * 99) : ℤ) : ℝ) / 100 ∧
    (∃ k : ℕ, 1 ≤ k ∧ k ≤ 100 ∧
      (generatePrize (0, 0) [(1, 0)]).getD 0 0 = (k : ℝ) / 100) ∧
    (euclid (0, 0) (([((1 : ℝ), (0 : ℝ))] : List (ℝ × ℝ)).getD 0 (0, 0)) ≤
        euclid (0, 0) (([((1 : ℝ), (0 : ℝ))] : List (ℝ × ℝ)).getD 0 (0, 0)) →
      (generatePrize (0, 0) [(1, 0)]).getD 0 0 ≤ (generatePrize (0, 0) [(1, 0)]).getD 0 0)) := by
  have hd : 0 < maxDistToDepot ((0 : ℝ), (0 : ℝ)) [(1, 0)] := by
    norm_num [maxDistToDepot, euclid, Real.sqrt_one, max_def]
  exact ⟨⟨by norm_num, hd⟩,
    generate_prize_tiers (0, 0) [(1, 0)] 0 0 (by norm_num) (by norm_num) hd⟩

lemma chain'_sorted_iff (l : List ℕ) :
    l.Sorted (· ≤ ·) →
      (¬ List.Chain' (fun a b => b = 0 ∨ a < b) l ↔ ∃ v, v ≠ 0 ∧ 2 ≤ l.count v) := by
  induction l with
  | nil =>
    intro _
    simp
  | cons a t ih =>
    intro hs
    cases t with
    | nil =>
      constructor
      · intro h
        exact absurd (List.chain'_singleton a) h
      · rintro ⟨v, hv0, hv2⟩
        have hle : [a].count v ≤ 1 := by
          by_cases h : a = v <;> simp [h, List.count_cons]
        omega
    | cons b t' =>
      have hs' : (b :: t').Sorted (· ≤ ·) := hs.of_cons
      have hab : a ≤ b := (List.sorted_cons.mp hs).1 b (List.mem_cons_self b t')
      rw [List.chain'_cons]
      constructor
      · intro h
        rcases not_and_or.mp h with h1 | h2
        · push_neg at h1
          obtain ⟨hb0, hba⟩ := h1
          have haeb : a = b := le_antisymm hab hba
          refine ⟨b, hb0, ?_⟩
          subst haeb
          simp [List.count_cons]
        · obtain ⟨v, hv0, hv2⟩ := (ih hs').mp h2
          refine ⟨v, hv0, ?_⟩
          have hmono : (b :: t').count v ≤ (a :: b :: t').count v := by
            simp [List.count_cons]
          omega
      · rintro ⟨v, hv0, hv2⟩
        by_cases hcount : 2 ≤ (b :: t').count v
        · exact not_and_or.mpr (Or.inr ((ih hs').mpr ⟨v, hv0, hcount⟩))
        · have hav : a = v := by
            by_contra hne
            rw [List.count_cons_of_ne (Ne.symm hne)] at hv2
            exact hcount hv2
          subst hav
          have h1 : 1 ≤ (b :: t').count a := by
            rw [List.count_cons_self] at hv2
            omega
          have hmem : a ∈ b :: t' := List.count_pos_iff.mp (by omega)
          have hbv : b ≤ a := by
            rcases List.mem_cons.mp hmem with rfl | hmem'
            · exact le_refl _
            · exact (List.sorted_cons.mp hs').1 a hmem'
          have haeb : a = b := le_antisymm hab hbv
          refine not_and_or.mpr (Or.inl ?_)
          push_neg
          exact ⟨haeb ▸ hv0, le_of_eq haeb.symm⟩

lemma dup_check_iff (actions : List ℕ) :
    ¬ List.Chain' (fun a b => b = 0 ∨ a < b) (List.insertionSort (· ≤ ·) actions) ↔
      ∃ v, v ≠ 0 ∧ 2 ≤ actions.count v := by
  rw [chain'_sorted_iff _ (List.sorted_insertionSort _ actions)]
  constructor <;> rintro ⟨v, hv0, hv2⟩ <;> refine ⟨v, hv0, ?_⟩
  · rwa [(List.perm_insertionSort (· ≤ ·) actions).count_eq] at hv2
  · rwa [(List.perm_insertionSort (· ≤ ·) actions).count_eq]

/-- C5: on a non-empty action sequence, get_reward fails exactly when some
non-zero node index appears at least twice in the sequence or the
reconstructed depot-to-depot tour length exceeds the configured capacity
plus the tolerance 1e-5, and on success it returns the collected prize. -/
theorem get_reward_spec (length_capacity prize_collect : ℝ) (locs : List (ℝ × ℝ))
    (actions : List ℕ) (_hne : actions ≠ []) :
    ((∃ e, OPEnv.get_reward length_capacity locs prize_collect actions = Except.error e) ↔
      (∃ v, v ≠ 0 ∧ 2 ≤ actions.count v) ∨
        length_capacity + 1e-5 < tourLength locs actions) ∧
    (∀ r, OPEnv.get_reward length_capacity locs prize_collect actions = Except.ok r →
      r = prize_collect) := by
  simp only [OPEnv.get_reward]
  by_cases hchain : List.Chain' (fun a b => b = 0 ∨ a < b) (List.insertionSort (· ≤ ·) actions)
  · rw [if_pos hchain]
    have hnodup : ¬ ∃ v, v ≠ 0 ∧ 2 ≤ actions.count v := fun h =>
      ((dup_check_iff actions).mpr h) hchain
    by_cases hlen : tourLength locs actions ≤ length_capacity + 1e-5
    · rw [if_pos hlen]
      refine ⟨⟨?_, ?_⟩, ?_⟩
      · rintro ⟨e, he⟩
        exact absurd he (by simp)
      · rintro (hd | hl)
        · exact absurd hd hnodup
        · exact absurd hlen (not_le.mpr hl)
      · intro r hr
        simpa using hr.symm
    · rw [if_neg hlen]
      refine ⟨⟨?_, ?_⟩, ?_⟩
      · intro _
        exact Or.inr (not_le.mp hlen)
      · intro _
        exact ⟨"Max length exceeded", rfl⟩
      · intro r hr
        exact absurd hr (by simp)
  · rw [if_neg hchain]
    refine ⟨⟨?_, ?_⟩, ?_⟩
    · intro _
      exact Or.inl ((dup_check_iff actions).mp hchain)
    · intro _
      exact ⟨"Duplicates", rfl⟩
    · intro r hr
      exact absurd hr (by simp)

theorem get_reward_spec_witness :
    (([1, 1] : List ℕ) ≠ []) ∧
    ((∃ e, OPEnv.get_reward 1 [(0, 0), (0, 0)] 0 [1, 1] = Except.error e) ↔
      (∃ v, v ≠ 0 ∧ 2 ≤ ([1, 1] : List ℕ).count v) ∨
        1 + 1e-5 < tourLength [(0, 0), (0, 0)] [1, 1]) ∧
    (∀ r, OPEnv.get_reward 1 [(0, 0), (0, 0)] 0 [1, 1] = Except.ok r → r = 0) :=
  ⟨by simp, get_reward_spec 1 0 [(0, 0), (0, 0)] [1, 1] (by simp)⟩

end RL4CO

